import Mathlib

set_option autoImplicit false

namespace GFN

/-! Shallow embedding of the torchgfn core: `gfn/estimators.py`,
`gfn/gflownet/trajectory_balance.py` and `gfn/utils/distributions.py`.

Torch tensors are modelled as a shape (list of dimension sizes) together with
the row-major flat list of entries; exact rationals stand for floating-point
values, and the floating-point `log` is an explicit function parameter
`log : ℚ → ℚ` wherever the code takes a logarithm, so that statements about
which probability is looked up hold for every logarithm function.
Randomness is modelled by passing the drawn category indices explicitly. -/

/-- A torch tensor, modelled as its shape together with its row-major flat data. -/
structure Tensor (α : Type) where
  shape : List Nat
  data : List α
  deriving DecidableEq

/-- Number of entries a tensor of this shape holds. -/
def Tensor.numel {α : Type} (t : Tensor α) : Nat := t.shape.prod

/-- torch `unsqueeze(-1)`: append a dimension of size 1; the flat data is unchanged. -/
def Tensor.unsqueezeLast {α : Type} (t : Tensor α) : Tensor α :=
  ⟨t.shape ++ [1], t.data⟩

/-- torch `squeeze(-1)` on a tensor whose last dimension is 1: drop the last
dimension; the flat data is unchanged. -/
def Tensor.squeezeLast {α : Type} (t : Tensor α) : Tensor α :=
  ⟨t.shape.dropLast, t.data⟩

/-- Size of the last dimension (`shape[-1]`), with 0 standing in for the
out-of-range access on a 0-dimensional tensor. -/
def Tensor.lastDim {α : Type} (t : Tensor α) : Nat := t.shape.getLastD 0

/-- Elementwise map over a tensor. -/
def Tensor.mapData {α β : Type} (f : α → β) (t : Tensor α) : Tensor β :=
  ⟨t.shape, t.data.map f⟩

/-- torch.distributions.Categorical built from a `probs` tensor of shape
`(*batch_shape, n)`: row `b` of the data holds the (unnormalized)
probabilities of the `n` categories for batch element `b`. -/
structure Categorical where
  probs : Tensor ℚ
  deriving DecidableEq

/-- Batch shape of the distribution: all but the last dimension of `probs`. -/
def Categorical.batchShape (d : Categorical) : List Nat := d.probs.shape.dropLast

/-- The number of categories: the last dimension of `probs`. -/
def Categorical.nCats (d : Categorical) : Nat := d.probs.shape.getLastD 0

/-- Number of batch elements. -/
def Categorical.batchNumel (d : Categorical) : Nat := d.batchShape.prod

/-- Unnormalized probability of category `k` in batch row `b`. -/
def Categorical.prob (d : Categorical) (b k : Nat) : ℚ :=
  d.probs.data.getD (b * d.nCats + k) 0

/-- Sum of the probability row `b` (torch normalizes `probs` by this sum). -/
def Categorical.rowSum (d : Categorical) (b : Nat) : ℚ :=
  ((d.probs.data.drop (b * d.nCats)).take d.nCats).sum

/-- Normalized probability mass of category `k` in batch row `b`. -/
def Categorical.pmf (d : Categorical) (b k : Nat) : ℚ :=
  d.prob b k / d.rowSum b

/-- Model of `Categorical.sample(sample_shape)`: returns a tensor of drawn category
indices of shape `sample_shape ++ batch_shape`; the draws themselves are an
explicit input (they come from the random number generator in torch). -/
def Categorical.sample (d : Categorical) (sshape : List Nat) (draws : List Nat) :
    Tensor Nat :=
  ⟨sshape ++ d.batchShape, draws⟩

/-- Indexed map over a list by structural recursion (torch applies
`log_prob` elementwise, the flat position determining the batch row). -/
def mapWithIdx {α β : Type} (f : Nat → α → β) : Nat → List α → List β
  | _, [] => []
  | i, a :: t => f i a :: mapWithIdx f (i + 1) t

/-- Model of `Categorical.log_prob(value)`: elementwise log of the normalized
probability of the given category, the batch row being the trailing
coordinates of the value tensor (row-major, batch dimensions last). -/
def Categorical.logProb (log : ℚ → ℚ) (d : Categorical) (v : Tensor Nat) :
    Tensor ℚ :=
  ⟨v.shape, mapWithIdx (fun j k => log (d.pmf (j % d.batchNumel) k)) 0 v.data⟩

/-- Model of `UnsqueezedCategorical.sample` (gfn/utils/distributions.py): the base
categorical sample with a final dimension of size 1 appended. -/
def UnsqueezedCategorical.sample (d : Categorical) (sshape : List Nat)
    (draws : List Nat) : Tensor Nat :=
  (Categorical.sample d sshape draws).unsqueezeLast

/-- Model of `UnsqueezedCategorical.log_prob` (gfn/utils/distributions.py): asserts the
last dimension of the sample is 1 (`none` models the failed assertion) and
returns the base log-probabilities of the squeezed sample. -/
def UnsqueezedCategorical.logProb (log : ℚ → ℚ) (d : Categorical)
    (v : Tensor Nat) : Option (Tensor ℚ) :=
  if v.lastDim = 1 then some (Categorical.logProb log d v.squeezeLast) else none

theorem Tensor.squeezeLast_unsqueezeLast {α : Type} (t : Tensor α) :
    t.unsqueezeLast.squeezeLast = t := by
  cases t with
  | mk s d => simp [Tensor.unsqueezeLast, Tensor.squeezeLast]

theorem Tensor.lastDim_unsqueezeLast {α : Type} (t : Tensor α) :
    t.unsqueezeLast.lastDim = 1 := by
  cases t with
  | mk s d => simp [Tensor.unsqueezeLast, Tensor.lastDim]

/-- C4: `UnsqueezedCategorical.sample` returns a tensor of shape
`(*sample_shape, *batch_shape, 1)`; `log_prob` of any tensor whose last
dimension has size 1 is the base categorical log-probability of its
`squeeze(-1)` (shape `(*sample_shape, *batch_shape)`); hence `log_prob`
exactly inverts the unsqueeze performed by `sample` (round trip). -/
theorem unsqueezed_categorical_round_trip :
    (∀ (d : Categorical) (sshape draws : List Nat),
      (UnsqueezedCategorical.sample d sshape draws).shape
        = sshape ++ d.batchShape ++ [1])
    ∧ (∀ (log : ℚ → ℚ) (d : Categorical) (v : Tensor Nat), v.lastDim = 1 →
      UnsqueezedCategorical.logProb log d v
        = some (Categorical.logProb log d v.squeezeLast))
    ∧ (∀ (log : ℚ → ℚ) (d : Categorical) (sshape draws : List Nat),
      UnsqueezedCategorical.logProb log d
          (UnsqueezedCategorical.sample d sshape draws)
        = some (Categorical.logProb log d (Categorical.sample d sshape draws))
      ∧ (Categorical.logProb log d (Categorical.sample d sshape draws)).shape
        = sshape ++ d.batchShape) := by
  refine ⟨?_, ?_, ?_⟩
  · intro d sshape draws
    simp [UnsqueezedCategorical.sample, Categorical.sample, Tensor.unsqueezeLast]
  · intro log d v hv
    simp [UnsqueezedCategorical.logProb, hv]
  · intro log d sshape draws
    constructor
    · simp [UnsqueezedCategorical.sample, UnsqueezedCategorical.logProb,
        Tensor.lastDim_unsqueezeLast, Tensor.squeezeLast_unsqueezeLast]
    · simp [Categorical.logProb, Categorical.sample]

/-- Witness for C4 at a concrete categorical (probs shape (2, 3), batch
shape (2,)), sample shape (1,) and a concrete tensor of last dimension 1. -/
theorem unsqueezed_categorical_round_trip_witness :
    UnsqueezedCategorical.logProb id ⟨⟨[2, 3], [1, 2, 3, 4, 5, 6]⟩⟩
        ⟨[1, 2, 1], [0, 2]⟩
      = some (Categorical.logProb id ⟨⟨[2, 3], [1, 2, 3, 4, 5, 6]⟩⟩
          (Tensor.squeezeLast ⟨[1, 2, 1], [0, 2]⟩)) :=
  unsqueezed_categorical_round_trip.2.1 id ⟨⟨[2, 3], [1, 2, 3, 4, 5, 6]⟩⟩
    ⟨[1, 2, 1], [0, 2]⟩ (by decide)

/-! Floating-point values for the loss computations are modelled as
`Option ℚ`: `none` is NaN, `some q` a finite value; torch arithmetic
propagates NaN through every operation, and the mean of an empty tensor
is NaN. -/

/-- A float value: `none` models NaN. -/
abbrev F : Type := Option ℚ

/-- NaN-propagating addition. -/
def fadd : F → F → F
  | some a, some b => some (a + b)
  | _, _ => none

/-- NaN-propagating subtraction. -/
def fsub : F → F → F
  | some a, some b => some (a - b)
  | _, _ => none

/-- NaN-propagating multiplication. -/
def fmul : F → F → F
  | some a, some b => some (a * b)
  | _, _ => none

/-- torch `.pow(2)`. -/
def fsq (x : F) : F := fmul x x

/-- NaN-propagating sum of a list of floats. -/
def fsum (l : List F) : F := l.foldr fadd (some 0)

/-- torch `.mean()`: NaN on an empty tensor, otherwise the sum divided by the
length (NaN-propagating). -/
def fmean (l : List F) : F :=
  if l.length = 0 then none
  else
    match fsum l with
    | some s => some (s / (l.length : ℚ))
    | none => none

/-- torch `.isnan()`. -/
def isNaN (x : F) : Bool := x.isNone

/-- Modelled from the spec: `TrajectoryBasedGFlowNet.get_trajectories_scores`
lives in `gfn/gflownet/base.py`, which is not under `src/`; per the
glossary ("Trajectory Balance: a training objective enforcing consistency
between a learned partition-function estimate and the product of
forward/backward transition probabilities along a sampled trajectory") and
its description in the claims, it returns the per-trajectory scores: the
log-ratio of the forward to the backward trajectory probability,
`score_i = log P_F(tau_i) - log P_B(tau_i)`. The per-trajectory total
forward and backward log-probabilities are taken as explicit inputs. -/
def get_trajectories_scores (logPF logPB : List F) : List F :=
  List.zipWith fsub logPF logPB

/-- Model of `TBGFlowNet` (gfn/gflownet/trajectory_balance.py): holds the forward and
backward policy modules (kept abstractly as their named parameters) and the
scalar `logZ` parameter. -/
structure TBGFlowNet where
  pf : List (String × Tensor ℚ)
  pb : List (String × Tensor ℚ)
  logZ : F

/-- The value computed by the body of `TBGFlowNet.loss`:
`(scores + self.logZ).pow(2).mean()`. -/
def TBGFlowNet.lossValue (g : TBGFlowNet) (logPF logPB : List F) : F :=
  fmean ((get_trajectories_scores logPF logPB).map fun s => fsq (fadd s g.logZ))

/-- Model of `TBGFlowNet.loss`: computes the trajectory balance loss, raises
`ValueError` if it is NaN, and returns it otherwise; the method body never
assigns any attribute, so the post-state is the input state. -/
def TBGFlowNet.loss (g : TBGFlowNet) (logPF logPB : List F) :
    Except String F × TBGFlowNet :=
  (if isNaN (g.lossValue logPF logPB) then .error "loss is nan"
   else .ok (g.lossValue logPF logPB), g)

/-- Model of `LogPartitionVarianceGFlowNet` (gfn/gflownet/trajectory_balance.py):
holds the forward and backward policy modules. -/
structure LogPartitionVarianceGFlowNet where
  pf : List (String × Tensor ℚ)
  pb : List (String × Tensor ℚ)

/-- The value computed by the body of `LogPartitionVarianceGFlowNet.loss`:
`(scores - scores.mean()).pow(2).mean()`. -/
def LogPartitionVarianceGFlowNet.lossValue (g : LogPartitionVarianceGFlowNet)
    (logPF logPB : List F) : F :=
  fmean ((get_trajectories_scores logPF logPB).map fun s =>
    fsq (fsub s (fmean (get_trajectories_scores logPF logPB))))

/-- Model of `LogPartitionVarianceGFlowNet.loss`: computes the log-partition-variance
loss, raises `ValueError` if it is NaN, and returns it otherwise; the method
body never assigns any attribute, so the post-state is the input state. -/
def LogPartitionVarianceGFlowNet.loss (g : LogPartitionVarianceGFlowNet)
    (logPF logPB : List F) : Except String F × LogPartitionVarianceGFlowNet :=
  (if isNaN (g.lossValue logPF logPB) then .error "loss is NaN."
   else .ok (g.lossValue logPF logPB), g)

/-- Exact mean of a list of rationals. -/
def mean (l : List ℚ) : ℚ := l.sum / (l.length : ℚ)

theorem fsub_some (a b : ℚ) : fsub (some a) (some b) = some (a - b) := rfl

theorem get_trajectories_scores_some (pf pb : List ℚ) :
    get_trajectories_scores (pf.map some) (pb.map some)
      = (List.zipWith (· - ·) pf pb).map some := by
  induction pf generalizing pb with
  | nil => simp [get_trajectories_scores]
  | cons a t ih =>
    cases pb with
    | nil => simp [get_trajectories_scores]
    | cons b u =>
      simpa [get_trajectories_scores, fsub_some] using ih u

theorem fsum_map_some (l : List ℚ) : fsum (l.map some) = some l.sum := by
  induction l with
  | nil => simp [fsum]
  | cons a t ih => simp [fsum, fadd, List.foldr_cons] at ih ⊢; simp [ih, fadd]

theorem fmean_map_some (l : List ℚ) (h : l ≠ []) :
    fmean (l.map some) = some (mean l) := by
  have hl : l.length ≠ 0 := fun hc => h (List.length_eq_zero.mp hc)
  simp [fmean, fsum_map_some, mean, hl]

theorem sum_sq_eq_zero_iff (l : List ℚ) :
    (l.map fun x => x * x).sum = 0 ↔ ∀ x ∈ l, x = 0 := by
  induction l with
  | nil => simp
  | cons a t ih =>
    have ha : (0:ℚ) ≤ a * a := mul_self_nonneg a
    have ht : (0:ℚ) ≤ (t.map fun x => x * x).sum := by
      apply List.sum_nonneg
      intro x hx
      rcases List.mem_map.mp hx with ⟨y, _, rfl⟩
      exact mul_self_nonneg y
    simp only [List.map_cons, List.sum_cons, List.mem_cons]
    rw [add_eq_zero_iff_of_nonneg ha ht, mul_self_eq_zero, ih]
    constructor
    · rintro ⟨h0, h1⟩ x hx
      rcases hx with rfl | hx
      · exact h0
      · exact h1 x hx
    · intro h
      exact ⟨h a (Or.inl rfl), fun x hx => h x (Or.inr hx)⟩

/-- C1: `TBGFlowNet.loss` returns the mean over trajectories of
`(s_i + logZ)^2` where `s_i` are the scores of `get_trajectories_scores`
(log-ratio of forward to backward trajectory probabilities), and this loss is
zero exactly when `logZ = -s_i` for every trajectory. -/
theorem tb_loss_spec (g : TBGFlowNet) (z : ℚ) (hz : g.logZ = some z)
    (pf pb : List ℚ) (hne : List.zipWith (· - ·) pf pb ≠ []) :
    (TBGFlowNet.loss g (pf.map some) (pb.map some)).1
      = .ok (some (mean ((List.zipWith (· - ·) pf pb).map fun s => (s + z) ^ 2)))
    ∧ (mean ((List.zipWith (· - ·) pf pb).map fun s => (s + z) ^ 2) = 0
        ↔ ∀ s ∈ List.zipWith (· - ·) pf pb, z = -s) := by
  set l := List.zipWith (· - ·) pf pb with hl
  have hmap : ((l.map some).map fun s => fsq (fadd s g.logZ))
      = (l.map fun s => (s + z) ^ 2).map some := by
    rw [hz]
    simp [fsq, fadd, fmul, pow_two, Function.comp, List.map_map]
  have hval : TBGFlowNet.lossValue g (pf.map some) (pb.map some)
      = some (mean (l.map fun s => (s + z) ^ 2)) := by
    rw [TBGFlowNet.lossValue, get_trajectories_scores_some, ← hl, hmap,
      fmean_map_some]
    simpa using hne
  constructor
  · simp [TBGFlowNet.loss, hval, isNaN]
  · have hlen : ((l.map fun s => (s + z) ^ 2).length : ℚ) ≠ 0 := by
      rw [List.length_map]
      exact Nat.cast_ne_zero.mpr fun hc => hne (List.length_eq_zero.mp hc)
    rw [mean, div_eq_zero_iff]
    constructor
    · intro h
      have hsum : (l.map fun s => (s + z) ^ 2).sum = 0 := by
        rcases h with h | h
        · exact h
        · exact absurd h hlen
      have : ((l.map fun s => s + z).map fun x => x * x).sum = 0 := by
        rw [List.map_map]
        simpa [Function.comp, sq] using hsum
      intro s hs
      have := (sum_sq_eq_zero_iff (l.map fun s => s + z)).mp this (s + z)
        (List.mem_map.mpr ⟨s, hs, rfl⟩)
      linarith
    · intro h
      left
      have : ∀ x ∈ l.map fun s => s + z, x = 0 := by
        intro x hx
        rcases List.mem_map.mp hx with ⟨s, hs, rfl⟩
        have := h s hs
        linarith
      have hsum := (sum_sq_eq_zero_iff (l.map fun s => s + z)).mpr this
      rw [List.map_map] at hsum
      simpa [Function.comp, sq] using hsum

/-- Witness for C1: two trajectories with scores -3 and -3, logZ = 3; the
loss is the mean of the squares and is zero since logZ = -score everywhere. -/
theorem tb_loss_spec_witness :
    (TBGFlowNet.loss ⟨[], [], some 3⟩ ([1, 2].map some) ([4, 5].map some)).1
      = .ok (some (mean ((List.zipWith (· - ·) [1, 2] [4, 5]).map
          fun s => (s + 3) ^ 2)))
    ∧ (mean ((List.zipWith (· - ·) [1, 2] [4, 5]).map fun s => (s + 3) ^ 2) = 0
        ↔ ∀ s ∈ List.zipWith (· - ·) [1, 2] [4, 5], (3:ℚ) = -s) :=
  tb_loss_spec ⟨[], [], some 3⟩ 3 rfl [1, 2] [4, 5] (by decide)

theorem sum_sub_sq (l : List ℚ) (c : ℚ) :
    (l.map fun s => (s - c) ^ 2).sum
      = (l.map fun s => s ^ 2).sum - 2 * c * l.sum + (l.length : ℚ) * c ^ 2 := by
  induction l with
  | nil => simp
  | cons a t ih =>
    simp only [List.map_cons, List.sum_cons, List.length_cons]
    push_cast
    rw [ih]
    ring

theorem mean_sub_sq (l : List ℚ) (h : l ≠ []) :
    mean (l.map fun s => (s - mean l) ^ 2)
      = mean (l.map fun s => s ^ 2) - mean l ^ 2 := by
  have hn : (l.length : ℚ) ≠ 0 :=
    Nat.cast_ne_zero.mpr fun hc => h (List.length_eq_zero.mp hc)
  simp only [mean, List.length_map, sum_sub_sq]
  field_simp
  ring

/-- C3: both loss objectives consume the sampled trajectories and produce a
single scalar value; `LogPartitionVarianceGFlowNet.loss` equals the mean over
trajectories of the squared deviation of each score from the batch mean
score, which is the empirical variance of the scores (mean of squares minus
square of the mean). -/
theorem lpv_loss_spec (g : LogPartitionVarianceGFlowNet) (pf pb : List ℚ)
    (hne : List.zipWith (· - ·) pf pb ≠ []) :
    (LogPartitionVarianceGFlowNet.loss g (pf.map some) (pb.map some)).1
      = .ok (some (mean ((List.zipWith (· - ·) pf pb).map
          fun s => (s - mean (List.zipWith (· - ·) pf pb)) ^ 2)))
    ∧ mean ((List.zipWith (· - ·) pf pb).map
          fun s => (s - mean (List.zipWith (· - ·) pf pb)) ^ 2)
      = mean ((List.zipWith (· - ·) pf pb).map fun s => s ^ 2)
        - mean (List.zipWith (· - ·) pf pb) ^ 2 := by
  set l := List.zipWith (· - ·) pf pb with hl
  have hmap : ((l.map some).map fun s => fsq (fsub s (some (mean l))))
      = (l.map fun s => (s - mean l) ^ 2).map some := by
    simp [fsq, fsub, fmul, pow_two, Function.comp, List.map_map]
  have hval : LogPartitionVarianceGFlowNet.lossValue g (pf.map some)
        (pb.map some)
      = some (mean (l.map fun s => (s - mean l) ^ 2)) := by
    rw [LogPartitionVarianceGFlowNet.lossValue, get_trajectories_scores_some,
      ← hl, fmean_map_some l hne, hmap, fmean_map_some]
    simpa using hne
  refine ⟨?_, mean_sub_sq l hne⟩
  simp [LogPartitionVarianceGFlowNet.loss, hval, isNaN]

/-- Witness for C3 at two trajectories with scores 1 and 3. -/
theorem lpv_loss_spec_witness :
    (LogPartitionVarianceGFlowNet.loss ⟨[], []⟩ ([1, 3].map some)
        ([0, 0].map some)).1
      = .ok (some (mean ((List.zipWith (· - ·) [1, 3] [0, 0]).map
          fun s => (s - mean (List.zipWith (· - ·) [1, 3] [0, 0])) ^ 2)))
    ∧ mean ((List.zipWith (· - ·) [1, 3] [0, 0]).map
          fun s => (s - mean (List.zipWith (· - ·) [1, 3] [0, 0])) ^ 2)
      = mean ((List.zipWith (· - ·) [1, 3] [0, 0]).map fun s => s ^ 2)
        - mean (List.zipWith (· - ·) [1, 3] [0, 0]) ^ 2 :=
  lpv_loss_spec ⟨[], []⟩ [1, 3] [0, 0] (by decide)

/-- C9: each loss method raises `ValueError` exactly when the computed loss
value is NaN, returns the computed value otherwise, and leaves the GFlowNet
state (the `logZ` parameter and both policy modules) unchanged. -/
theorem loss_nan_check_and_purity :
    (∀ (g : TBGFlowNet) (logPF logPB : List F),
        ((TBGFlowNet.loss g logPF logPB).1 = Except.error "loss is nan"
          ↔ isNaN (TBGFlowNet.lossValue g logPF logPB) = true)
      ∧ (isNaN (TBGFlowNet.lossValue g logPF logPB) = false →
          (TBGFlowNet.loss g logPF logPB).1
            = Except.ok (TBGFlowNet.lossValue g logPF logPB))
      ∧ (TBGFlowNet.loss g logPF logPB).2 = g)
    ∧ (∀ (g : LogPartitionVarianceGFlowNet) (logPF logPB : List F),
        ((LogPartitionVarianceGFlowNet.loss g logPF logPB).1
            = Except.error "loss is NaN."
          ↔ isNaN (LogPartitionVarianceGFlowNet.lossValue g logPF logPB)
              = true)
      ∧ (isNaN (LogPartitionVarianceGFlowNet.lossValue g logPF logPB)
            = false →
          (LogPartitionVarianceGFlowNet.loss g logPF logPB).1
            = Except.ok (LogPartitionVarianceGFlowNet.lossValue g logPF logPB))
      ∧ (LogPartitionVarianceGFlowNet.loss g logPF logPB).2 = g) := by
  constructor
  · intro g logPF logPB
    by_cases h : isNaN (TBGFlowNet.lossValue g logPF logPB) = true
    · simp [TBGFlowNet.loss, h]
    · simp only [Bool.not_eq_true] at h
      simp [TBGFlowNet.loss, h]
  · intro g logPF logPB
    by_cases h : isNaN (LogPartitionVarianceGFlowNet.lossValue g logPF logPB)
        = true
    · simp [LogPartitionVarianceGFlowNet.loss, h]
    · simp only [Bool.not_eq_true] at h
      simp [LogPartitionVarianceGFlowNet.loss, h]

/-- Witness for C9: on finite inputs the losses return their computed values. -/
theorem loss_nan_check_and_purity_witness :
    (TBGFlowNet.loss ⟨[], [], some 0⟩ [some 1] [some 0]).1
      = Except.ok (TBGFlowNet.lossValue ⟨[], [], some 0⟩ [some 1] [some 0])
    ∧ (LogPartitionVarianceGFlowNet.loss ⟨[], []⟩ [some 1] [some 0]).1
      = Except.ok (LogPartitionVarianceGFlowNet.lossValue ⟨[], []⟩ [some 1]
          [some 0]) :=
  ⟨((loss_nan_check_and_purity.1 ⟨[], [], some 0⟩ [some 1] [some 0]).2.1
      (by decide)),
   ((loss_nan_check_and_purity.2 ⟨[], []⟩ [some 1] [some 0]).2.1 (by decide))⟩

/-! Embedding of `gfn/estimators.py`. States are kept abstract as a list of
rationals; a preprocessor maps states to the module input. An `nn.Module` is
modelled by its forward function together with its named parameters;
`Module.load_state_dict` installs the given state dict as the parameters. -/

/-- An `nn.Module`: forward function plus named parameters. -/
structure Module where
  forward : List ℚ → Tensor ℚ
  params : List (String × Tensor ℚ)

/-- Model of `nn.Module.named_parameters()` (as the dict the estimator builds). -/
def Module.named_parameters (m : Module) : List (String × Tensor ℚ) := m.params

/-- Model of `nn.Module.load_state_dict(sd)`: installs the state dict as parameters. -/
def Module.load_state_dict (m : Module) (sd : List (String × Tensor ℚ)) :
    Module :=
  { m with params := sd }

/-- An environment, reduced to what the estimators consult: its preprocessor,
whether it is a `DiscreteEnv`, and its number of actions. -/
structure Env where
  preprocessor : List ℚ → List ℚ
  isDiscrete : Bool
  n_actions : Nat

/-- Model of `FunctionEstimator` state: the environment, the encapsulated module, the
preprocessor taken from the environment, and the shape-checked flag. -/
structure FunctionEstimator where
  env : Env
  module : Module
  preprocessor : List ℚ → List ℚ
  output_dim_is_checked : Bool

/-- Model of `FunctionEstimator.__init__`: stores env and module, takes the
preprocessor from the environment, and starts with the flag unset. -/
def FunctionEstimator.mk_init (env : Env) (module : Module) :
    FunctionEstimator :=
  ⟨env, module, env.preprocessor, false⟩

/-- Model of `FunctionEstimator.__call__`, parametrized by the per-subclass
`check_output_dim`: computes `module(preprocessor(states))`; if the flag is
unset it runs the check (propagating its `ValueError`) and sets the flag;
returns the output together with the post-state of the estimator. -/
def FunctionEstimator.call
    (check : FunctionEstimator → Tensor ℚ → Except String Unit)
    (e : FunctionEstimator) (states : List ℚ) :
    Except String (Tensor ℚ × FunctionEstimator) :=
  let out := e.module.forward (e.preprocessor states)
  if e.output_dim_is_checked then .ok (out, e)
  else
    match check e out with
    | .error msg => .error msg
    | .ok _ => .ok (out, { e with output_dim_is_checked := true })

/-- Model of `FunctionEstimator.named_parameters`: the named parameters of the module. -/
def FunctionEstimator.named_parameters (e : FunctionEstimator) :
    List (String × Tensor ℚ) :=
  e.module.named_parameters

/-- Model of `FunctionEstimator.load_state_dict`: loads the dict into the module. -/
def FunctionEstimator.load_state_dict (e : FunctionEstimator)
    (sd : List (String × Tensor ℚ)) : FunctionEstimator :=
  { e with module := e.module.load_state_dict sd }

/-- Model of `LogEdgeFlowEstimator.check_output_dim`: `ValueError` unless the
environment is discrete; then `module_output.shape[-1]` is compared with
`env.n_actions` (the out-of-range access on a 0-dimensional output is the
`IndexError` branch). -/
def LogEdgeFlowEstimator.check_output_dim (e : FunctionEstimator)
    (out : Tensor ℚ) : Except String Unit :=
  if ¬ e.env.isDiscrete then
    .error "ValueError: LogEdgeFlowEstimator only supports discrete environments."
  else
    match out.shape.getLast? with
    | none => .error "IndexError: tuple index out of range"
    | some d =>
      if d ≠ e.env.n_actions then
        .error "ValueError: LogEdgeFlowEstimator output dimension mismatch"
      else .ok ()

/-- Model of `LogStateFlowEstimator.check_output_dim`: `ValueError` unless
`module_output.shape[-1]` equals 1. -/
def LogStateFlowEstimator.check_output_dim (e : FunctionEstimator)
    (out : Tensor ℚ) : Except String Unit :=
  match out.shape.getLast? with
  | none => .error "IndexError: tuple index out of range"
  | some d =>
    if d ≠ 1 then
      .error "ValueError: LogStateFlowEstimator output dimension should be 1"
    else .ok ()

/-- Model of `LogZEstimator`: stores a bare scalar tensor (no module). -/
structure LogZEstimator where
  tensor : Tensor ℚ
  deriving DecidableEq

/-- Model of `LogZEstimator.__init__`: asserts the tensor is 0-dimensional (the
`requires_grad` flag only concerns the external autodiff library). -/
def LogZEstimator.mk_init (t : Tensor ℚ) : Except String LogZEstimator :=
  if t.shape = [] then .ok ⟨t⟩ else .error "AssertionError"

/-- Model of `LogZEstimator.named_parameters`: the singleton dict holding the tensor. -/
def LogZEstimator.named_parameters (z : LogZEstimator) :
    List (String × Tensor ℚ) :=
  [("logZ", z.tensor)]

/-- Model of `LogZEstimator.load_state_dict`: replaces the tensor with the
`logZ` entry (`KeyError` if absent); other entries are ignored. -/
def LogZEstimator.load_state_dict (z : LogZEstimator)
    (sd : List (String × Tensor ℚ)) : Except String LogZEstimator :=
  match sd.find? (fun p => p.1 == "logZ") with
  | some p => .ok ⟨p.2⟩
  | none => .error "KeyError: logZ"

/-- C2: on a fresh (not yet checked) estimator, `LogEdgeFlowEstimator.__call__`
succeeds iff the environment is discrete and the last dimension of the output is
`n_actions`; `LogStateFlowEstimator.__call__` succeeds iff its output last
dimension is 1; `LogZEstimator` construction succeeds iff its tensor is
0-dimensional. -/
theorem estimator_output_checks :
    (∀ (env : Env) (m : Module) (states : List ℚ),
      (m.forward (env.preprocessor states)).shape ≠ [] →
      ((∃ r, FunctionEstimator.call LogEdgeFlowEstimator.check_output_dim
          (FunctionEstimator.mk_init env m) states = .ok r)
        ↔ (env.isDiscrete = true
            ∧ (m.forward (env.preprocessor states)).lastDim = env.n_actions)))
    ∧ (∀ (env : Env) (m : Module) (states : List ℚ),
      (m.forward (env.preprocessor states)).shape ≠ [] →
      ((∃ r, FunctionEstimator.call LogStateFlowEstimator.check_output_dim
          (FunctionEstimator.mk_init env m) states = .ok r)
        ↔ (m.forward (env.preprocessor states)).lastDim = 1))
    ∧ (∀ t : Tensor ℚ,
      (∃ z, LogZEstimator.mk_init t = .ok z) ↔ t.shape = []) := by
  refine ⟨?_, ?_, ?_⟩
  · intro env m states hsh
    have hlast : (m.forward (env.preprocessor states)).shape.getLast?
        = some (m.forward (env.preprocessor states)).lastDim := by
      rw [Tensor.lastDim, List.getLastD_eq_getLast?]
      cases hc : (m.forward (env.preprocessor states)).shape.getLast? with
      | none => exact absurd (List.getLast?_eq_none_iff.mp hc) hsh
      | some d => rfl
    constructor
    · rintro ⟨r, hr⟩
      by_cases hd : env.isDiscrete = true
      · refine ⟨hd, ?_⟩
        by_contra hne
        rw [FunctionEstimator.call] at hr
        simp [FunctionEstimator.mk_init, LogEdgeFlowEstimator.check_output_dim,
          hd, hlast, hne] at hr
      · rw [FunctionEstimator.call] at hr
        simp [FunctionEstimator.mk_init, LogEdgeFlowEstimator.check_output_dim,
          hd] at hr
    · rintro ⟨hd, hdim⟩
      refine ⟨(m.forward (env.preprocessor states),
        { FunctionEstimator.mk_init env m with output_dim_is_checked := true }),
        ?_⟩
      rw [FunctionEstimator.call]
      simp [FunctionEstimator.mk_init, LogEdgeFlowEstimator.check_output_dim,
        hd, hlast, hdim]
  · intro env m states hsh
    have hlast : (m.forward (env.preprocessor states)).shape.getLast?
        = some (m.forward (env.preprocessor states)).lastDim := by
      rw [Tensor.lastDim, List.getLastD_eq_getLast?]
      cases hc : (m.forward (env.preprocessor states)).shape.getLast? with
      | none => exact absurd (List.getLast?_eq_none_iff.mp hc) hsh
      | some d => rfl
    constructor
    · rintro ⟨r, hr⟩
      by_contra hne
      rw [FunctionEstimator.call] at hr
      simp [FunctionEstimator.mk_init, LogStateFlowEstimator.check_output_dim,
        hlast, hne] at hr
    · intro hdim
      refine ⟨(m.forward (env.preprocessor states),
        { FunctionEstimator.mk_init env m with output_dim_is_checked := true }),
        ?_⟩
      rw [FunctionEstimator.call]
      simp [FunctionEstimator.mk_init, LogStateFlowEstimator.check_output_dim,
        hlast, hdim]
  · intro t
    constructor
    · rintro ⟨z, hz⟩
      by_contra hne
      simp [LogZEstimator.mk_init, hne] at hz
    · intro hsh
      exact ⟨⟨t⟩, by simp [LogZEstimator.mk_init, hsh]⟩

/-- Witness for C2: a discrete 3-action environment with a well-shaped edge
flow output, a state flow output of last dimension 1, and a scalar logZ. -/
theorem estimator_output_checks_witness :
    (∃ r, FunctionEstimator.call LogEdgeFlowEstimator.check_output_dim
        (FunctionEstimator.mk_init ⟨id, true, 3⟩
          ⟨fun _ => ⟨[2, 3], [0, 0, 0, 0, 0, 0]⟩, []⟩) []
      = .ok r)
    ∧ (∃ r, FunctionEstimator.call LogStateFlowEstimator.check_output_dim
        (FunctionEstimator.mk_init ⟨id, false, 0⟩
          ⟨fun _ => ⟨[2, 1], [0, 0]⟩, []⟩) []
      = .ok r)
    ∧ (∃ z, LogZEstimator.mk_init ⟨[], [5]⟩ = .ok z) :=
  ⟨(estimator_output_checks.1 ⟨id, true, 3⟩
      ⟨fun _ => ⟨[2, 3], [0, 0, 0, 0, 0, 0]⟩, []⟩ [] (by decide)).mpr
      (by constructor <;> decide),
   (estimator_output_checks.2.1 ⟨id, false, 0⟩
      ⟨fun _ => ⟨[2, 1], [0, 0]⟩, []⟩ [] (by decide)).mpr (by decide),
   (estimator_output_checks.2.2 ⟨[], [5]⟩).mpr (by decide)⟩

/-- C8: the output-shape check runs only on the first call. Once the flag is
set, `__call__` succeeds unconditionally (whatever the check or the output
shape) and leaves the estimator unchanged; and any successful call leaves the
flag set, so a shape error can only occur on the first call. -/
theorem output_dim_checked_only_once :
    (∀ (check : FunctionEstimator → Tensor ℚ → Except String Unit)
        (e : FunctionEstimator) (states : List ℚ),
      e.output_dim_is_checked = true →
      FunctionEstimator.call check e states
        = .ok (e.module.forward (e.preprocessor states), e))
    ∧ (∀ (check : FunctionEstimator → Tensor ℚ → Except String Unit)
        (e : FunctionEstimator) (states : List ℚ)
        (r : Tensor ℚ × FunctionEstimator),
      FunctionEstimator.call check e states = .ok r →
      r.2.output_dim_is_checked = true) := by
  constructor
  · intro check e states h
    rw [FunctionEstimator.call]
    simp [h]
  · intro check e states r hr
    rw [FunctionEstimator.call] at hr
    by_cases h : e.output_dim_is_checked = true
    · simp [h] at hr
      rw [← hr]
      exact h
    · simp only [Bool.not_eq_true] at h
      simp only [h, if_neg Bool.false_ne_true] at hr
      cases hc : check e (e.module.forward (e.preprocessor states)) with
      | error msg => rw [hc] at hr; exact absurd hr (by simp)
      | ok u => rw [hc] at hr; simp at hr; rw [← hr]

/-- Witness for C8: a checked estimator whose module output would fail every
shape check is still called successfully a second time, with the estimator
unchanged. -/
theorem output_dim_checked_only_once_witness :
    FunctionEstimator.call LogStateFlowEstimator.check_output_dim
        ⟨⟨id, true, 3⟩, ⟨fun _ => ⟨[2, 3], [0, 0, 0, 0, 0, 0]⟩, []⟩, id, true⟩ []
      = .ok ((⟨[2, 3], [0, 0, 0, 0, 0, 0]⟩ : Tensor ℚ),
          ⟨⟨id, true, 3⟩, ⟨fun _ => ⟨[2, 3], [0, 0, 0, 0, 0, 0]⟩, []⟩, id, true⟩) :=
  output_dim_checked_only_once.1 LogStateFlowEstimator.check_output_dim
    ⟨⟨id, true, 3⟩, ⟨fun _ => ⟨[2, 3], [0, 0, 0, 0, 0, 0]⟩, []⟩, id, true⟩ [] rfl

/-- Counterexample for C7 as stated: if `LogZEstimator.load_state_dict`
loaded the given state dict into an encapsulated module whose parameters
`named_parameters` then returns — which is what `FunctionEstimator` does —
then loading a dict with entries `logZ` and `w` would make
`named_parameters` return that dict; instead `LogZEstimator` stores a bare
tensor and keeps only the `logZ` entry. -/
theorem logz_estimator_not_module_backed :
    (LogZEstimator.load_state_dict ⟨⟨[], [0]⟩⟩
        [("logZ", ⟨[], [1]⟩), ("w", ⟨[], [2]⟩)]).map
        LogZEstimator.named_parameters
      ≠ Except.ok [("logZ", ⟨[], [1]⟩), ("w", ⟨[], [2]⟩)] := by
  have hload : LogZEstimator.load_state_dict ⟨⟨[], [0]⟩⟩
      [("logZ", ⟨[], [1]⟩), ("w", ⟨[], [2]⟩)] = .ok ⟨⟨[], [1]⟩⟩ := rfl
  rw [hload]
  intro hcontra
  simp [Except.map, LogZEstimator.named_parameters] at hcontra

/-- C7 amended: every `FunctionEstimator` stores a trainable module and
delegates to it — `__call__` returns `module(preprocessor(states))`,
`named_parameters` returns the named parameters of the module (hence after
`load_state_dict sd` it returns `sd`), and `load_state_dict` loads the dict
into the module. `LogZEstimator`, by contrast, stores a bare scalar tensor
and no module: its `named_parameters` is the singleton dict `logZ ↦ tensor`
and its `load_state_dict` replaces the tensor by the `logZ` entry of the dict,
ignoring all other entries. -/
theorem estimator_delegation :
    (∀ (check : FunctionEstimator → Tensor ℚ → Except String Unit)
        (e : FunctionEstimator) (states : List ℚ)
        (r : Tensor ℚ × FunctionEstimator),
      FunctionEstimator.call check e states = .ok r →
      r.1 = e.module.forward (e.preprocessor states))
    ∧ (∀ e : FunctionEstimator,
      e.named_parameters = e.module.named_parameters)
    ∧ (∀ (e : FunctionEstimator) (sd : List (String × Tensor ℚ)),
      (e.load_state_dict sd).module = e.module.load_state_dict sd
        ∧ (e.load_state_dict sd).named_parameters = sd)
    ∧ (∀ z : LogZEstimator, z.named_parameters = [("logZ", z.tensor)])
    ∧ (∀ (z : LogZEstimator) (t : Tensor ℚ)
        (rest : List (String × Tensor ℚ)),
      z.load_state_dict (("logZ", t) :: rest) = .ok ⟨t⟩) := by
  refine ⟨?_, fun e => rfl, fun e sd => ⟨rfl, rfl⟩, fun z => rfl, ?_⟩
  · intro check e states r hr
    rw [FunctionEstimator.call] at hr
    by_cases h : e.output_dim_is_checked = true
    · simp [h] at hr
      rw [← hr]
    · simp only [Bool.not_eq_true] at h
      simp only [h, if_neg Bool.false_ne_true] at hr
      cases hc : check e (e.module.forward (e.preprocessor states)) with
      | error msg => rw [hc] at hr; exact absurd hr (by simp)
      | ok u => rw [hc] at hr; simp at hr; rw [← hr]
  · intro z t rest
    simp [LogZEstimator.load_state_dict]

/-- Witness for C7 (amended): a concrete successful call returns the module
output on the preprocessed states, and loading a concrete dict into a
`LogZEstimator` replaces its tensor by the `logZ` entry. -/
theorem estimator_delegation_witness :
    ((⟨[1], [7]⟩ : Tensor ℚ)
      = Module.forward ⟨fun _ => ⟨[1], [7]⟩, []⟩
          (FunctionEstimator.preprocessor
            ⟨⟨id, true, 3⟩, ⟨fun _ => ⟨[1], [7]⟩, []⟩, id, true⟩ []))
    ∧ LogZEstimator.load_state_dict ⟨⟨[], [0]⟩⟩ [("logZ", ⟨[], [9]⟩)]
      = .ok ⟨⟨[], [9]⟩⟩ :=
  ⟨estimator_delegation.1 LogStateFlowEstimator.check_output_dim
      ⟨⟨id, true, 3⟩, ⟨fun _ => ⟨[1], [7]⟩, []⟩, id, true⟩ []
      (⟨[1], [7]⟩, ⟨⟨id, true, 3⟩, ⟨fun _ => ⟨[1], [7]⟩, []⟩, id, true⟩) rfl,
   estimator_delegation.2.2.2.2 ⟨⟨[], [0]⟩⟩ ⟨[], [9]⟩ []⟩

/-! Embedding of the remaining wrappers of `gfn/utils/distributions.py`. -/

/-- Model of `Categorical.log_prob` without the logarithm: the elementwise normalized
probability of the given categories. -/
def Categorical.probOf (d : Categorical) (v : Tensor Nat) : Tensor ℚ :=
  ⟨v.shape, mapWithIdx (fun j k => d.pmf (j % d.batchNumel) k) 0 v.data⟩

/-- Model of `CategoricalIndexes` (gfn/utils/distributions.py): a categorical over the
`n * n` flat index pairs of a graph with node ids `node_indexes`. -/
structure CategoricalIndexes where
  probs : Tensor ℚ
  node_indexes : List Nat
  deriving DecidableEq

/-- The base categorical the class inherits from (`super().__init__(probs)`). -/
def CategoricalIndexes.toCat (d : CategoricalIndexes) : Categorical := ⟨d.probs⟩

/-- The number of nodes: `node_indexes.shape[0]`. -/
def CategoricalIndexes.n (d : CategoricalIndexes) : Nat := d.node_indexes.length

/-- Model of `torch.bucketize(v, boundaries)` with `right=False` on sorted boundaries:
the number of boundary entries strictly below `v`. -/
def bucketize (v : Nat) (boundaries : List Nat) : Nat :=
  boundaries.countP fun b => decide (b < v)

/-- Model of `value[..., 0] * n + value[..., 1]` on the row-major data of a tensor
whose last dimension is 2: combine consecutive pairs. -/
def pairEncode (n : Nat) : List Nat → List Nat
  | a :: b :: rest => (a * n + b) :: pairEncode n rest
  | _ => []

/-- Model of `CategoricalIndexes.sample`: draws flat indices from the base
categorical, stacks `(k div n, k mod n)` along a new last dimension, and maps
both coordinates through `node_indexes` (`index_select`). -/
def CategoricalIndexes.sample (d : CategoricalIndexes)
    (sshape draws : List Nat) : Tensor Nat :=
  let samples := Categorical.sample d.toCat sshape draws
  let out : Tensor Nat := ⟨samples.shape ++ [2],
    samples.data.flatMap fun k => [k / d.n, k % d.n]⟩
  ⟨out.shape, out.data.map fun i => d.node_indexes.getD i 0⟩

/-- Model of `CategoricalIndexes.log_prob`: re-encodes `value[...,0] * n +
value[...,1]`, bucketizes the result into `node_indexes`, and evaluates the
base categorical log-probability there. -/
def CategoricalIndexes.logProb (log : ℚ → ℚ) (d : CategoricalIndexes)
    (v : Tensor Nat) : Tensor ℚ :=
  let enc : Tensor Nat := ⟨v.shape.dropLast, pairEncode d.n v.data⟩
  let buck : Tensor Nat :=
    ⟨enc.shape, enc.data.map fun x => bucketize x d.node_indexes⟩
  Categorical.logProb log d.toCat buck

/-- Counterexample for C6 as stated: with uniform-ish probabilities on a
2-node graph with `node_indexes = [0, 1]` and drawn flat index `k = 3`,
`sample` decodes to the pair `(1, 1)`, but `log_prob` re-encodes it to
`1 * 2 + 1 = 3` and bucketize returns 2 (both node ids are below 3), so the
probability of category 2 (= 1/4) is returned instead of that of the
originally drawn index 3 (= 1/2): the encode/decode round trip fails. -/
theorem categorical_indexes_roundtrip_cex :
    CategoricalIndexes.logProb id ⟨⟨[1, 4], [1/8, 1/8, 1/4, 1/2]⟩, [0, 1]⟩
        (CategoricalIndexes.sample ⟨⟨[1, 4], [1/8, 1/8, 1/4, 1/2]⟩, [0, 1]⟩
          [] [3])
      ≠ Categorical.logProb id ⟨⟨[1, 4], [1/8, 1/8, 1/4, 1/2]⟩⟩
          (Categorical.sample ⟨⟨[1, 4], [1/8, 1/8, 1/4, 1/2]⟩⟩ [] [3]) := by
  have h1 : CategoricalIndexes.logProb id
      ⟨⟨[1, 4], [1/8, 1/8, 1/4, 1/2]⟩, [0, 1]⟩
      (CategoricalIndexes.sample ⟨⟨[1, 4], [1/8, 1/8, 1/4, 1/2]⟩, [0, 1]⟩
        [] [3])
      = ⟨[1], [Categorical.pmf ⟨⟨[1, 4], [1/8, 1/8, 1/4, 1/2]⟩⟩ 0 2]⟩ := rfl
  have h2 : Categorical.logProb id ⟨⟨[1, 4], [1/8, 1/8, 1/4, 1/2]⟩⟩
      (Categorical.sample ⟨⟨[1, 4], [1/8, 1/8, 1/4, 1/2]⟩⟩ [] [3])
      = ⟨[1], [Categorical.pmf ⟨⟨[1, 4], [1/8, 1/8, 1/4, 1/2]⟩⟩ 0 3]⟩ := rfl
  rw [h1, h2]
  intro h
  have hd : Categorical.pmf ⟨⟨[1, 4], [1/8, 1/8, 1/4, 1/2]⟩⟩ 0 2
      = Categorical.pmf ⟨⟨[1, 4], [1/8, 1/8, 1/4, 1/2]⟩⟩ 0 3 := by
    simpa using congrArg Tensor.data h
  rw [Categorical.pmf, Categorical.pmf, Categorical.prob, Categorical.prob,
    Categorical.rowSum] at hd
  norm_num [Categorical.nCats, List.getD] at hd

/-- C6 amended: `sample` decodes a drawn flat index `k` into the node pair
`(node_indexes[k div n], node_indexes[k mod n])`; `log_prob` re-encodes the
pair via `value[...,0] * n + value[...,1]` followed by bucketize into
`node_indexes` and returns the base categorical log-probability of that
re-encoded bucket index — which in general differs from the originally drawn
flat index `k`, so the encode/decode round trip does not hold. -/
theorem categorical_indexes_encode_decode (log : ℚ → ℚ)
    (d : CategoricalIndexes) (k : Nat)
    (hb : d.probs.shape = [1, d.n * d.n]) :
    CategoricalIndexes.sample d [] [k]
      = ⟨[1, 2], [d.node_indexes.getD (k / d.n) 0,
          d.node_indexes.getD (k % d.n) 0]⟩
    ∧ CategoricalIndexes.logProb log d (CategoricalIndexes.sample d [] [k])
      = Categorical.logProb log d.toCat
          ⟨[1], [bucketize (d.node_indexes.getD (k / d.n) 0 * d.n
              + d.node_indexes.getD (k % d.n) 0) d.node_indexes]⟩ := by
  have hbs : d.toCat.batchShape = [1] := by
    rw [Categorical.batchShape, CategoricalIndexes.toCat, hb]
    rfl
  constructor
  · rw [CategoricalIndexes.sample, Categorical.sample, hbs]
    rfl
  · rw [CategoricalIndexes.sample, Categorical.sample, hbs]
    rw [CategoricalIndexes.logProb]
    rfl

/-- Witness for C6 (amended) at the concrete distribution of the counterexample:
the drawn index 3 decodes to the node pair (1, 1), and `log_prob` of that
sample evaluates the base categorical at the re-encoded bucket index 2. -/
theorem categorical_indexes_encode_decode_witness :
    CategoricalIndexes.sample ⟨⟨[1, 4], [1/8, 1/8, 1/4, 1/2]⟩, [0, 1]⟩ [] [3]
      = ⟨[1, 2], [1, 1]⟩
    ∧ CategoricalIndexes.logProb id
        ⟨⟨[1, 4], [1/8, 1/8, 1/4, 1/2]⟩, [0, 1]⟩
        (CategoricalIndexes.sample ⟨⟨[1, 4], [1/8, 1/8, 1/4, 1/2]⟩, [0, 1]⟩
          [] [3])
      = Categorical.logProb id ⟨⟨[1, 4], [1/8, 1/8, 1/4, 1/2]⟩⟩
          ⟨[1], [2]⟩ := by
  exact categorical_indexes_encode_decode id
    ⟨⟨[1, 4], [1/8, 1/8, 1/4, 1/2]⟩, [0, 1]⟩ 3 (by decide)

/-- Python dict lookup `sample[k]` on the dictionary of samples. -/
def lookupSample : List (String × Tensor Nat) → String → Tensor Nat
  | [], _ => ⟨[], []⟩
  | p :: rest, k => if p.1 = k then p.2 else lookupSample rest k

/-- Model of `CompositeDistribution.sample` (gfn/utils/distributions.py): the
dictionary mapping each component name to the sample of that component. The
components are kept as categoricals over their own spaces. -/
def CompositeDistribution.sample (ds : List (String × Categorical))
    (sshape : List Nat) (draws : String → List Nat) :
    List (String × Tensor Nat) :=
  ds.map fun p => (p.1, Categorical.sample p.2 sshape (draws p.1))

/-- Model of `.reshape(B, -1).sum(dim=-1)` on row-major data: `B` row sums of rows of
the given length. -/
def chunkSums : Nat → Nat → List ℚ → List ℚ
  | 0, _, _ => []
  | b + 1, rowLen, l => (l.take rowLen).sum :: chunkSums b rowLen (l.drop rowLen)

/-- Row products, the multiplicative analogue of `chunkSums`. -/
def chunkProds : Nat → Nat → List ℚ → List ℚ
  | 0, _, _ => []
  | b + 1, rowLen, l =>
    (l.take rowLen).prod :: chunkProds b rowLen (l.drop rowLen)

/-- Python `sum(log_probs)` over a list of per-batch vectors: elementwise
sum, starting from the first vector. -/
def sumVecs : List (List ℚ) → List ℚ
  | [] => []
  | h :: t => t.foldl (fun acc v => List.zipWith (· + ·) acc v) h

/-- Model of `CompositeDistribution.log_prob`: for each component, its
log-probabilities of its named sample, reshaped to `(batch, -1)` and summed
over the last dimension; the per-component vectors are then summed
elementwise across components. -/
def CompositeDistribution.logProb (log : ℚ → ℚ)
    (ds : List (String × Categorical)) (sample : List (String × Tensor Nat)) :
    List ℚ :=
  sumVecs (ds.map fun p =>
    chunkSums ((lookupSample sample p.1).shape.headD 0)
      ((lookupSample sample p.1).numel
        / (lookupSample sample p.1).shape.headD 0)
      (Categorical.logProb log p.2 (lookupSample sample p.1)).data)

/-- Formalization of the words of the claim (not of the code): the log-probability
of the dictionary sample under the uniform mixture of the components — per
batch element, the log of the average over components of its
probability of its named sample. -/
def CompositeDistribution.mixtureLogProb (log : ℚ → ℚ)
    (ds : List (String × Categorical)) (sample : List (String × Tensor Nat)) :
    List ℚ :=
  (sumVecs (ds.map fun p =>
    chunkProds ((lookupSample sample p.1).shape.headD 0)
      ((lookupSample sample p.1).numel
        / (lookupSample sample p.1).shape.headD 0)
      (Categorical.probOf p.2 (lookupSample sample p.1)).data)).map
    fun q => log (q / (ds.length : ℚ))

/-- Counterexample for C5 as stated: two fair-coin components with both
samples landing on category 0. Each component contributes log-probability
log(1/2); the code returns their sum, log(1/2) + log(1/2) (with the
identity standing for the logarithm: 1), whereas the probability of the
sample under the uniform mixture of the two components is
(1/2 + 1/2) / 2 = 1/2, whose (identity-)log is 1/2: the code computes the
log-density of the product of the components, not of a mixture. -/
theorem composite_mixture_cex :
    CompositeDistribution.logProb id
        [("a", ⟨⟨[1, 2], [1/2, 1/2]⟩⟩), ("b", ⟨⟨[1, 2], [1/2, 1/2]⟩⟩)]
        [("a", ⟨[1], [0]⟩), ("b", ⟨[1], [0]⟩)]
      ≠ CompositeDistribution.mixtureLogProb id
        [("a", ⟨⟨[1, 2], [1/2, 1/2]⟩⟩), ("b", ⟨⟨[1, 2], [1/2, 1/2]⟩⟩)]
        [("a", ⟨[1], [0]⟩), ("b", ⟨[1], [0]⟩)] := by
  intro h
  rw [CompositeDistribution.logProb, CompositeDistribution.mixtureLogProb] at h
  norm_num [sumVecs, chunkSums, chunkProds, lookupSample, Categorical.logProb,
    Categorical.probOf, mapWithIdx, Categorical.pmf, Categorical.prob,
    Categorical.rowSum, Categorical.nCats, Categorical.batchNumel,
    Categorical.batchShape, Tensor.numel, List.getD] at h

theorem lookup_built (ds : List (String × Categorical)) (xs : String → Nat)
    (name : String) (h : name ∈ ds.map Prod.fst) :
    lookupSample (ds.map fun p => (p.1, (⟨[1], [xs p.1]⟩ : Tensor Nat))) name
      = ⟨[1], [xs name]⟩ := by
  induction ds with
  | nil => simp at h
  | cons a t ih =>
    simp only [List.map_cons] at h ⊢
    rw [lookupSample]
    by_cases ha : a.1 = name
    · rw [if_pos ha, ha]
    · rw [if_neg ha]
      apply ih
      rcases List.mem_cons.mp h with h1 | h1
      · exact absurd h1.symm ha
      · exact h1

theorem foldl_zipAdd_singletons {α : Type} (f : α → ℚ) (a : ℚ)
    (t : List α) :
    (t.map fun x => [f x]).foldl (fun acc v => List.zipWith (· + ·) acc v) [a]
      = [a + (t.map f).sum] := by
  induction t generalizing a with
  | nil => simp
  | cons b u ih => simp [ih, add_assoc]

theorem sumVecs_map_singleton {α : Type} (f : α → ℚ) (l : List α)
    (h : l ≠ []) :
    sumVecs (l.map fun x => [f x]) = [(l.map f).sum] := by
  cases l with
  | nil => exact absurd rfl h
  | cons a t => simp [sumVecs, foldl_zipAdd_singletons]

theorem sum_map_log {α : Type} (log : ℚ → ℚ)
    (hmul : ∀ a b : ℚ, log (a * b) = log a + log b) (hone : log 1 = 0)
    (g : α → ℚ) (l : List α) :
    (l.map fun x => log (g x)).sum = log ((l.map g).prod) := by
  induction l with
  | nil => simp [hone]
  | cons a t ih => simp [hmul, ih]

/-- C5 amended: `sample` returns the dictionary mapping each component name
to the sample of that component; `log_prob` returns, per batch element, the SUM
over components of its log-probability of its named sample —
for any logarithm (a map turning products into sums and 1 into 0) this is
the log-probability of the dictionary sample under the PRODUCT (joint) of
the components, not under their uniform mixture. Stated for single-element
component samples. -/
theorem composite_distribution_sum_of_logs (log : ℚ → ℚ)
    (hmul : ∀ a b : ℚ, log (a * b) = log a + log b) (hone : log 1 = 0)
    (ds : List (String × Categorical)) (hne : ds ≠ [])
    (sshape : List Nat) (draws : String → List Nat) (xs : String → Nat) :
    CompositeDistribution.sample ds sshape draws
      = ds.map (fun p => (p.1, Categorical.sample p.2 sshape (draws p.1)))
    ∧ CompositeDistribution.logProb log ds
        (ds.map fun p => (p.1, (⟨[1], [xs p.1]⟩ : Tensor Nat)))
      = [(ds.map fun p => log (Categorical.pmf p.2 0 (xs p.1))).sum]
    ∧ CompositeDistribution.logProb log ds
        (ds.map fun p => (p.1, (⟨[1], [xs p.1]⟩ : Tensor Nat)))
      = [log ((ds.map fun p => Categorical.pmf p.2 0 (xs p.1)).prod)] := by
  have hsum : CompositeDistribution.logProb log ds
      (ds.map fun p => (p.1, (⟨[1], [xs p.1]⟩ : Tensor Nat)))
      = [(ds.map fun p => log (Categorical.pmf p.2 0 (xs p.1))).sum] := by
    rw [CompositeDistribution.logProb]
    have hmap : (ds.map fun p =>
        chunkSums ((lookupSample (ds.map fun p =>
              (p.1, (⟨[1], [xs p.1]⟩ : Tensor Nat))) p.1).shape.headD 0)
          ((lookupSample (ds.map fun p =>
              (p.1, (⟨[1], [xs p.1]⟩ : Tensor Nat))) p.1).numel
            / (lookupSample (ds.map fun p =>
              (p.1, (⟨[1], [xs p.1]⟩ : Tensor Nat))) p.1).shape.headD 0)
          (Categorical.logProb log p.2 (lookupSample (ds.map fun p =>
              (p.1, (⟨[1], [xs p.1]⟩ : Tensor Nat))) p.1)).data)
        = ds.map fun p => [log (Categorical.pmf p.2 0 (xs p.1))] := by
      apply List.map_congr_left
      intro p hp
      rw [lookup_built ds xs p.1 (List.mem_map_of_mem _ hp)]
      simp [chunkSums, Categorical.logProb, mapWithIdx, Tensor.numel]
    rw [hmap, sumVecs_map_singleton _ ds hne]
  exact ⟨rfl, hsum, by rw [hsum, sum_map_log log hmul hone]⟩

/-- Witness for C5 (amended): the theorem instantiated with two concrete
fair-coin components and the valuation `fun _ => 0`, which satisfies both
logarithm axioms. -/
theorem composite_distribution_sum_of_logs_witness :
    CompositeDistribution.sample
        [("a", ⟨⟨[1, 2], [1/2, 1/2]⟩⟩), ("b", ⟨⟨[1, 2], [1/2, 1/2]⟩⟩)]
        [] (fun _ => [0])
      = [("a", Categorical.sample ⟨⟨[1, 2], [1/2, 1/2]⟩⟩ [] [0]),
         ("b", Categorical.sample ⟨⟨[1, 2], [1/2, 1/2]⟩⟩ [] [0])]
    ∧ CompositeDistribution.logProb (fun _ => 0)
        [("a", ⟨⟨[1, 2], [1/2, 1/2]⟩⟩), ("b", ⟨⟨[1, 2], [1/2, 1/2]⟩⟩)]
        [("a", ⟨[1], [0]⟩), ("b", ⟨[1], [0]⟩)]
      = [0 + 0] := by
  have h := composite_distribution_sum_of_logs (fun _ => 0)
    (fun a b => by norm_num) (by norm_num)
    [("a", ⟨⟨[1, 2], [1/2, 1/2]⟩⟩), ("b", ⟨⟨[1, 2], [1/2, 1/2]⟩⟩)]
    (by decide) [] (fun _ => [0]) (fun _ => 0)
  refine ⟨?_, ?_⟩
  · simp [CompositeDistribution.sample]
  · have h2 := h.2.1
    simpa using h2

/-- Model of `CategoricalActionType` (gfn/utils/distributions.py): built from a batch
of probability rows, it keeps only `probs[0]` as the base distribution and
remembers the batch length. -/
structure CategoricalActionType where
  probs : List (List ℚ)

/-- Model of `self.batch_len = len(probs)`. -/
def CategoricalActionType.batch_len (d : CategoricalActionType) : Nat :=
  d.probs.length

/-- Probability row of the base categorical: `probs[0]`. -/
def CategoricalActionType.row0 (d : CategoricalActionType) : List ℚ :=
  d.probs.headD []

/-- Normalized probability of category `k` under a probability row. -/
def rowPmf (row : List ℚ) (k : Nat) : ℚ := row.getD k 0 / row.sum

/-- Model of `CategoricalActionType.sample`: one draw from `Categorical(probs[0])`
(the drawn category is an explicit input), repeated `batch_len` times. -/
def CategoricalActionType.sample (d : CategoricalActionType) (draw : Nat) :
    List Nat :=
  List.replicate d.batch_len draw

/-- Model of `CategoricalActionType.log_prob(value)`: the base log-probability of
`value[0]`, repeated `batch_len` times. -/
def CategoricalActionType.log_prob (log : ℚ → ℚ) (d : CategoricalActionType)
    (value : List Nat) : List ℚ :=
  List.replicate d.batch_len (log (rowPmf d.row0 (value.headD 0)))

/-- C10: `CategoricalActionType.sample` draws one action type from the first
batch row probabilities and broadcasts it — every one of the `batch_len`
entries equals the single draw; and `log_prob(value)` is the base
log-probability of the first entry of `value`, repeated `batch_len` times,
ignoring every entry of `value` beyond the first. -/
theorem categorical_action_type_broadcast :
    (∀ (d : CategoricalActionType) (draw : Nat),
      CategoricalActionType.sample d draw = List.replicate d.batch_len draw
      ∧ ∀ x ∈ CategoricalActionType.sample d draw, x = draw)
    ∧ (∀ (log : ℚ → ℚ) (d : CategoricalActionType) (v : List Nat), v ≠ [] →
      CategoricalActionType.log_prob log d v
        = List.replicate d.batch_len (log (rowPmf d.row0 (v.headD 0))))
    ∧ (∀ (log : ℚ → ℚ) (d : CategoricalActionType) (v w : List Nat),
      v.headD 0 = w.headD 0 →
      CategoricalActionType.log_prob log d v
        = CategoricalActionType.log_prob log d w) := by
  refine ⟨fun d draw => ⟨rfl, fun x hx => List.eq_of_mem_replicate hx⟩,
    fun log d v hv => rfl, fun log d v w hvw => ?_⟩
  rw [CategoricalActionType.log_prob, CategoricalActionType.log_prob, hvw]

/-- Witness for C10 at a concrete two-row batch: the sample is the draw
repeated twice, and `log_prob` agrees on two values sharing a first entry. -/
theorem categorical_action_type_broadcast_witness :
    CategoricalActionType.log_prob id ⟨[[1/2, 1/2], [1/4, 3/4]]⟩ [1, 0]
      = List.replicate
          (CategoricalActionType.batch_len ⟨[[1/2, 1/2], [1/4, 3/4]]⟩)
          (id (rowPmf (CategoricalActionType.row0 ⟨[[1/2, 1/2], [1/4, 3/4]]⟩)
            (List.headD [1, 0] 0)))
    ∧ CategoricalActionType.log_prob id ⟨[[1/2, 1/2], [1/4, 3/4]]⟩ [1, 0]
      = CategoricalActionType.log_prob id ⟨[[1/2, 1/2], [1/4, 3/4]]⟩ [1, 7] :=
  ⟨categorical_action_type_broadcast.2.1 id ⟨[[1/2, 1/2], [1/4, 3/4]]⟩ [1, 0]
      (by decide),
   categorical_action_type_broadcast.2.2 id ⟨[[1/2, 1/2], [1/4, 3/4]]⟩
      [1, 0] [1, 7] (by decide)⟩

end GFN
